import Mathlib

/-!
Verification development for the hematite-lang front end (lexer + parser).

The Rust source is shallowly embedded: the character stream is a `List Char`,
the parallel per-category matcher candidates (`dyn TokenParser` objects in
`src/lexer.rs`) become the inductive `Cand`, and the tokenizer loop
(`TokenIterator::next`) becomes `lexLoop`/`nextE`.  Rust panics (the
`unwrap()` calls in `IntegerParser::complete` / `FloatParser::complete`)
are modelled as the `.error` branch of `Except String`.

Character-classification note: the Rust code uses the Unicode predicates
`char::is_alphabetic`, `char::is_numeric`, `char::is_alphanumeric` and
`char::is_whitespace`.  The embedding restricts these to their ASCII
fragments (on ASCII characters the functions below agree exactly with the
Rust ones); every concrete input appearing in the claims is ASCII.
-/

/-- ASCII fragment of Rust `char::is_whitespace` (0x09-0x0D and space). -/
def rustIsWhitespace (c : Char) : Bool :=
  c == ' ' || (0x09 ≤ c.toNat && c.toNat ≤ 0x0D)

/-- ASCII fragment of Rust `char::is_alphabetic`. -/
def rustIsAlphabetic (c : Char) : Bool := c.isAlpha

/-- ASCII fragment of Rust `char::is_numeric`. -/
def rustIsNumeric (c : Char) : Bool := c.isDigit

/-- ASCII fragment of Rust `char::is_alphanumeric`. -/
def rustIsAlphanumeric (c : Char) : Bool := rustIsAlphabetic c || rustIsNumeric c

/-- Rust `char::is_ascii_digit` (exact, it is already ASCII-only). -/
def rustIsAsciiDigit (c : Char) : Bool := c.isDigit

/-- Value of a (previously validated) ASCII digit string, most significant first. -/
def digitsToNat (ds : List Char) : Nat :=
  ds.foldl (fun acc c => acc * 10 + (c.toNat - '0'.toNat)) 0

/-- Model of Rust `str::parse::<i128>` (`i128::from_str`): an optional sign
followed by one or more ASCII digits, whose value fits in a signed 128-bit
integer; anything else fails. -/
def parseI128 (cs : List Char) : Option Int :=
  let (neg, ds) :=
    match cs with
    | '+' :: rest => (false, rest)
    | '-' :: rest => (true, rest)
    | _ => (false, cs)
  if ds.isEmpty || !ds.all rustIsAsciiDigit then none
  else
    let v : Int := if neg then -(digitsToNat ds : Int) else (digitsToNat ds : Int)
    if -(2 ^ 127) ≤ v ∧ v ≤ 2 ^ 127 - 1 then some v else none

/-- Validity of the mantissa of a Rust float literal: digits with at most one
decimal point and at least one digit. -/
def floatMantissaOk (cs : List Char) : Bool :=
  (cs.countP (fun c => c == '.')) ≤ 1 &&
    cs.all (fun c => c.isDigit || c == '.') &&
    cs.any Char.isDigit

/-- Validity of the exponent part of a Rust float literal. -/
def floatExpOk (cs : List Char) : Bool :=
  let ds := match cs with
    | '+' :: rest => rest
    | '-' :: rest => rest
    | _ => cs
  !ds.isEmpty && ds.all Char.isDigit

/-- Success predicate of Rust `str::parse::<f64>` (`f64::from_str`), whose
documented grammar is an optional sign followed by `inf`/`infinity`/`nan`
(case-insensitive) or a number `digit+ [. digit*] [exp] | . digit+ [exp]`
with `exp = (e|E) sign? digit+`.  Only success/failure is modelled; the
floating-point value itself is never needed by any claim. -/
def parseF64Ok (cs : List Char) : Bool :=
  let body := match cs with
    | '+' :: rest => rest
    | '-' :: rest => rest
    | _ => cs
  let lower := body.map Char.toLower
  if lower == "inf".data || lower == "infinity".data || lower == "nan".data then
    true
  else
    let mantissa := body.takeWhile (fun c => !(c == 'e' || c == 'E'))
    let rest := body.dropWhile (fun c => !(c == 'e' || c == 'E'))
    match rest with
    | [] => floatMantissaOk mantissa
    | _ :: ex => floatMantissaOk mantissa && floatExpOk ex

/-- The token model of `src/lexer.rs` (`enum Token`).  `float` stores the
matched source text; the Rust code stores the `f64` parsed from exactly that
text, and no claim depends on the numeric value. -/
inductive Token where
  | identifier (s : String)
  | macroCall (s : String)
  | integer (value : Int)
  | float (text : String)
  | stringLiteral (s : String)
  | charLit (c : Char)
  | leftParen
  | rightParen
  | leftBrace
  | rightBrace
  | leftBracket
  | rightBracket
  | comma
  | dot
  | colon
  | semicolon
  | plus
  | minus
  | star
  | slash
  | percent
  | arrow
  | equals
  | function
  | let_
  | mut
  | if_
  | else_
  | i8
  | i16
  | i32
  | i64
  | iptr
  | u8
  | u16
  | u32
  | u64
  | uptr
  | f32
  | f64
  | bool
  | charType
  | stringType
  | error (message : String)
  deriving DecidableEq, Repr

/-- The `Display` implementation for `Token` (used by the parser's
"Unexpected token" message).  `\x27` is the apostrophe the Rust code wraps
every token representation in.  For `float` the Rust code displays the
parsed `f64`; the model displays the matched text (no claim exercises it). -/
def tokenDisplay : Token → String
  | .identifier s => "\x27" ++ s ++ "\x27"
  | .macroCall s => "\x27" ++ s ++ "!\x27"
  | .integer i => "\x27" ++ toString i ++ "\x27"
  | .float t => "\x27" ++ t ++ "\x27"
  | .stringLiteral s => "\x27\"" ++ s ++ "\"\x27"
  | .charLit c => "\"\x27" ++ String.mk [c] ++ "\x27\""
  | .leftParen => "\x27(\x27"
  | .rightParen => "\x27)\x27"
  | .leftBrace => "\x27\x7b\x27"
  | .rightBrace => "\x27\x7d\x27"
  | .leftBracket => "\x27[\x27"
  | .rightBracket => "\x27]\x27"
  | .comma => "\x27,\x27"
  | .dot => "\x27.\x27"
  | .colon => "\x27:\x27"
  | .semicolon => "\x27;\x27"
  | .plus => "\x27+\x27"
  | .minus => "\x27-\x27"
  | .star => "\x27*\x27"
  | .slash => "\x27/\x27"
  | .percent => "\x27%\x27"
  | .arrow => "\x27->\x27"
  | .equals => "\x27=\x27"
  | .function => "\x27function\x27"
  | .let_ => "\x27let\x27"
  | .mut => "\x27mut\x27"
  | .if_ => "\x27if\x27"
  | .else_ => "\x27else\x27"
  | .i8 => "\x27i8\x27"
  | .i16 => "\x27i16\x27"
  | .i32 => "\x27i32\x27"
  | .i64 => "\x27i64\x27"
  | .iptr => "\x27iptr\x27"
  | .u8 => "\x27u8\x27"
  | .u16 => "\x27u16\x27"
  | .u32 => "\x27u32\x27"
  | .u64 => "\x27u64\x27"
  | .uptr => "\x27uptr\x27"
  | .f32 => "\x27f32\x27"
  | .f64 => "\x27f64\x27"
  | .bool => "\x27bool\x27"
  | .charType => "\x27char\x27"
  | .stringType => "\x27string\x27"
  | .error s => "\x27" ++ s ++ "\x27"

/-- One live matcher candidate (`Box<dyn TokenParser>` in the Rust code).
`exactMatch` covers every parser generated by `exact_match_token!`
(keywords, primitive-type keywords and punctuation); the other constructors
are the hand-written parsers of `src/lexer.rs`, with the same fields. -/
inductive Cand where
  | exactMatch (token : Token) (text : List Char) (offset : Nat)
  | identifierP (so_far : List Char)
  | macroCallP (so_far : List Char) (found_bang : Bool)
  | integerP (so_far : List Char)
  | floatP (so_far : List Char) (found_dot : Bool)
  | stringP (so_far : List Char) (found_initial_quote : Bool)
      (found_terminal_quote : Bool) (next_character_is_escaped : Bool)
  deriving DecidableEq, Repr

/-- `TokenParser::accept`: feed one character to a candidate, producing the
successor candidate or rejection.  Each arm mirrors the corresponding Rust
`accept` implementation. -/
def Cand.accept : Cand → Char → Option Cand
  | .exactMatch t text off, c =>
      if text.get? off = some c then some (.exactMatch t text (off + 1)) else none
  | .identifierP so_far, c =>
      if rustIsAlphabetic c || c == '_' || (!so_far.isEmpty && rustIsAsciiDigit c) then
        some (.identifierP (so_far ++ [c]))
      else none
  | .macroCallP so_far found_bang, c =>
      if found_bang then none
      else if rustIsAlphanumeric c || c == '_' then
        some (.macroCallP (so_far ++ [c]) false)
      else if c == '!' then some (.macroCallP so_far true)
      else none
  | .integerP so_far, c =>
      if rustIsNumeric c then some (.integerP (so_far ++ [c])) else none
  | .floatP so_far found_dot, c =>
      if rustIsNumeric c then some (.floatP (so_far ++ [c]) found_dot)
      else if c == '.' && !found_dot then some (.floatP (so_far ++ [c]) true)
      else none
  | .stringP so_far iq tq esc, c =>
      if tq then none
      else if !iq then
        if c == '"' then some (.stringP so_far true false false) else none
      else if c == '"' && !esc then some (.stringP so_far true true false)
      else some (.stringP (so_far ++ [c]) true false (c == '\\'))

/-- `TokenParser::complete`.  `.ok none` means "cannot complete",
`.ok (some t)` means "completes to `t`", and `.error` models the Rust panic
raised by the `unwrap()` in `IntegerParser::complete` /
`FloatParser::complete` when the accumulated text fails to parse. -/
def Cand.completeE : Cand → Except String (Option Token)
  | .exactMatch t text off => .ok (if off = text.length then some t else none)
  | .identifierP so_far => .ok (some (.identifier (String.mk so_far)))
  | .macroCallP so_far found_bang =>
      .ok (if found_bang then some (.macroCall (String.mk so_far)) else none)
  | .integerP so_far =>
      match parseI128 so_far with
      | some n => .ok (some (.integer n))
      | none => .error "IntegerParser::complete: integer parse failure (panic)"
  | .floatP so_far found_dot =>
      if found_dot then
        if parseF64Ok so_far then .ok (some (.float (String.mk so_far)))
        else .error "FloatParser::complete: float parse failure (panic)"
      else .ok none
  | .stringP so_far _ tq _ =>
      .ok (if tq then some (.stringLiteral (String.mk so_far)) else none)

/-- `completed_tokens.next()`: walk the surviving candidates in registration
order and return the first completion; a panicking `complete` aborts. -/
def firstCompletion : List Cand → Except String (Option Token)
  | [] => .ok none
  | k :: rest =>
      match k.completeE with
      | .error m => .error m
      | .ok (some t) => .ok (some t)
      | .ok none => firstCompletion rest

/-- Freshly constructed `exact_match_token!` candidate. -/
def kw (t : Token) (s : String) : Cand := .exactMatch t s.data 0

/-- The candidate vector built at the top of `TokenIterator::next`, in the
exact registration order of `src/lexer.rs` lines 367-410. -/
def initialPossibilities : List Cand :=
  [ kw .function "function", kw .let_ "let", kw .mut "mut", kw .if_ "if",
    kw .else_ "else", kw .i8 "i8", kw .i16 "i16", kw .i32 "i32", kw .i64 "i64",
    kw .iptr "iptr", kw .u8 "u8", kw .u16 "u16", kw .u32 "u32", kw .u64 "u64",
    kw .uptr "uptr", kw .f32 "f32", kw .f64 "f64", kw .bool "bool",
    kw .charType "char", kw .stringType "string",
    .identifierP [], .macroCallP [] false, .floatP [] false, .integerP [],
    .stringP [] false false false,
    kw .leftParen "(", kw .rightParen ")", kw .leftBrace "\x7b",
    kw .rightBrace "\x7d", kw .leftBracket "[", kw .rightBracket "]",
    kw .comma ",", kw .dot ".", kw .colon ":", kw .semicolon ";", kw .plus "+",
    kw .minus "-", kw .star "*", kw .slash "/", kw .percent "%",
    kw .arrow "->", kw .equals "=" ]

/-- One narrowing round: every surviving candidate is offered the peeked
character (`filter_map(|p| p.accept(c))`). -/
def step (cands : List Cand) (c : Char) : List Cand :=
  cands.filterMap (fun k => k.accept c)

/-- Candidates surviving after consuming a character sequence. -/
def survivors (cands : List Cand) : List Char → List Cand
  | [] => cands
  | c :: cs => survivors (step cands c) cs

/-- Result of the scanning loop of `TokenIterator::next` (lines 412-445).
`read` is `characters_read_so_far`; in `eof` it is the text consumed and
then silently dropped when the source is exhausted mid-token; in `tok` it is
the emitted token's matched text and `rest` starts with the (unconsumed)
character that stopped the scan. -/
inductive LoopResult where
  | eof (read : List Char)
  | tok (t : Token) (read : List Char) (rest : List Char)
  | errTok (t : Token) (rest : List Char)
  | panic (msg : String)
  deriving Repr

/-- The `while let Some(next_character) = self.base_iterator.peek()` loop. -/
def lexLoop : List Cand → List Char → List Char → LoopResult
  | _, read, [] => .eof read
  | cands, read, c :: rest =>
      if (step cands c).isEmpty then
        if read.isEmpty then
          .errTok (.error ("Invalid character: " ++ String.mk [c])) (c :: rest)
        else
          match firstCompletion cands with
          | .error m => .panic m
          | .ok (some t) => .tok t read (c :: rest)
          | .ok none =>
              .errTok (.error ("Invalid token: " ++ String.mk (read ++ [c])))
                (c :: rest)
      else
        lexLoop (step cands c) (read ++ [c]) rest

/-- The mutable state of `TokenIterator`: the terminal-error flag and the
not-yet-consumed suffix of the character source. -/
structure LexerState where
  found_invalid_token : Bool
  input : List Char
  deriving Repr

/-- `TokenIterator::next`: one pull on the token sequence.  `.ok (none, s)`
is end of sequence, `.error` models a lexer panic. -/
def nextE (s : LexerState) : Except String (Option Token × LexerState) :=
  if s.found_invalid_token then .ok (none, s)
  else
    let rest := s.input.dropWhile rustIsWhitespace
    match lexLoop initialPossibilities [] rest with
    | .eof _ => .ok (none, ⟨false, []⟩)
    | .tok t _ r => .ok (some t, ⟨false, r⟩)
    | .errTok t r => .ok (some t, ⟨true, r⟩)
    | .panic m => .error m

/-- Drain the token iterator with explicit fuel (each emitted non-error token
consumes at least one character, so `input.length + 1` rounds suffice). -/
def tokensAux : Nat → LexerState → Except String (List Token)
  | 0, _ => .ok []
  | fuel + 1, s =>
      match nextE s with
      | .error m => .error m
      | .ok (none, _) => .ok []
      | .ok (some t, s2) =>
          match tokensAux fuel s2 with
          | .error m => .error m
          | .ok ts => .ok (t :: ts)

/-- The full token sequence of an input (`lexer::tokenize` then collecting
the iterator); `.error` models a lexer panic. -/
def tokenize (input : List Char) : Except String (List Token) :=
  tokensAux (input.length + 1) ⟨false, input⟩

/-- The AST of `src/ast.rs` as a tagged variant: `list` is
`Vec<Box<dyn AstNode>>`, `integerLiteral` is the bare `i128` node, the rest
mirror the structs field by field (types and initializers are themselves
nodes, as in the Rust `Box<dyn AstNode>` fields). -/
inductive Ty where
  | i8 | i16 | i32 | i64 | iptr | u8 | u16 | u32 | u64 | uptr
  | f32 | f64 | bool | char | string
  deriving DecidableEq, Repr

inductive AstNode where
  | list (items : List AstNode)
  | variableDefinition (mutable : Bool) (name : String)
      (variable_type : AstNode) (value : AstNode)
  | type_ (t : Ty)
  | parameterDeclaration (name : String) (parameter_type : AstNode)
  | functionDefinition (name : String) (parameters : List AstNode)
      (return_type : AstNode) (body : AstNode)
  | ignoreValue (value : AstNode)
  | integerLiteral (value : Int)

/-- Parser failure: `syntaxError` is the `SyntaxError` struct (its message),
`fatal` models a Rust panic inside the parser (the `assert!` in
`parse_function`, or running the fueled combinator out of fuel, which no
actual run does since every item consumes at least one token). -/
inductive PError where
  | syntaxError (message : String)
  | fatal (message : String)
  deriving DecidableEq, Repr

/-- `SyntaxError::unexpected_token`. -/
def unexpected_token (t : Token) : PError :=
  .syntaxError ("Unexpected token: " ++ tokenDisplay t)

/-- `SyntaxError::unexpected_end`. -/
def unexpected_end : PError := .syntaxError "Unexpected end of input"

/-- `SyntaxError::unexpected`. -/
def unexpected : Option Token → PError
  | some t => unexpected_token t
  | none => unexpected_end

/-- The parser's token stream (a `Peekable` iterator): peek is `head?`,
next is uncons.  Every production returns the node plus the unconsumed
suffix. -/
abbrev ParseOut := Except PError (AstNode × List Token)

/-- `parse_type` (`src/parser.rs` lines 158-180). -/
def parse_type : List Token → ParseOut
  | t :: rest =>
      match t with
      | .i8 => .ok (.type_ .i8, rest)
      | .i16 => .ok (.type_ .i16, rest)
      | .i32 => .ok (.type_ .i32, rest)
      | .i64 => .ok (.type_ .i64, rest)
      | .iptr => .ok (.type_ .iptr, rest)
      | .u8 => .ok (.type_ .u8, rest)
      | .u16 => .ok (.type_ .u16, rest)
      | .u32 => .ok (.type_ .u32, rest)
      | .u64 => .ok (.type_ .u64, rest)
      | .uptr => .ok (.type_ .uptr, rest)
      | .f32 => .ok (.type_ .f32, rest)
      | .f64 => .ok (.type_ .f64, rest)
      | .bool => .ok (.type_ .bool, rest)
      | .charType => .ok (.type_ .char, rest)
      | .stringType => .ok (.type_ .string, rest)
      | _ => .error (unexpected_token t)
  | [] => .error unexpected_end

/-- `parse_expression`: only integer literals are admitted. -/
def parse_expression : List Token → ParseOut
  | .integer value :: rest => .ok (.integerLiteral value, rest)
  | t :: _ => .error (unexpected_token t)
  | [] => .error unexpected_end

/-- `parse_parameter_declaration`: name, colon, type, optional comma. -/
def parse_parameter_declaration : List Token → ParseOut
  | .identifier name :: rest =>
      (match rest with
      | .colon :: rest2 =>
          (match parse_type rest2 with
          | .error e => .error e
          | .ok (parameter_type, rest3) =>
              let rest4 := if rest3.head? = some Token.comma then rest3.tail else rest3
              .ok (.parameterDeclaration name parameter_type, rest4))
      | t :: _ => .error (unexpected_token t)
      | [] => .error unexpected_end)
  | t :: _ => .error (unexpected_token t)
  | [] => .error unexpected_end

/-- `parse_variable_definition`: `let ['mut'] name ':' type '=' expr ';'`. -/
def parse_variable_definition : List Token → ParseOut
  | .let_ :: rest =>
      let (mutable, rest2) :=
        if rest.head? = some Token.mut then (true, rest.tail) else (false, rest)
      (match rest2 with
      | .identifier name :: rest3 =>
          (match rest3 with
          | .colon :: rest4 =>
              (match parse_type rest4 with
              | .error e => .error e
              | .ok (variable_type, rest5) =>
                  (match rest5 with
                  | .equals :: rest6 =>
                      (match parse_expression rest6 with
                      | .error e => .error e
                      | .ok (value, rest7) =>
                          (match rest7 with
                          | .semicolon :: rest8 =>
                              .ok (.variableDefinition mutable name variable_type value,
                                rest8)
                          | t :: _ => .error (unexpected_token t)
                          | [] => .error unexpected_end))
                  | t :: _ => .error (unexpected_token t)
                  | [] => .error unexpected_end))
          | t :: _ => .error (unexpected_token t)
          | [] => .error unexpected_end)
      | t :: _ => .error (unexpected_token t)
      | [] => .error unexpected_end)
  | t :: _ => .error (unexpected_token t)
  | [] => .error unexpected_end

/-- `parse_statement`: `let` starts a variable definition; anything else is
an expression statement, wrapped in `IgnoreValue` exactly when a `;`
follows (which is then consumed). -/
def parse_statement (ts : List Token) : ParseOut :=
  match ts.head? with
  | some t =>
      if t = Token.let_ then parse_variable_definition ts
      else
        match parse_expression ts with
        | .error e => .error e
        | .ok (expression, rest) =>
            if rest.head? = some Token.semicolon then
              .ok (.ignoreValue expression, rest.tail)
            else
              .ok (expression, rest)
  | none => .error unexpected_end

/-- `parse_repeated_item`: peek; on the terminator (`none` standing for
"require end of stream") stop, consuming it when it is a real token; on an
exhausted stream fail with "Unexpected end of input"; otherwise parse one
item and continue.  The explicit fuel only bounds the loop; running out is
the `.fatal` branch, never reached when fuel exceeds the item count. -/
def parse_repeated_item (fuel : Nat) (f : List Token → ParseOut)
    (end_ : Option Token) (ts : List Token) :
    Except PError (List AstNode × List Token) :=
  match fuel with
  | 0 => .error (.fatal "out of fuel")
  | fuel + 1 =>
      if ts.head? = end_ then
        if end_.isSome then .ok ([], ts.tail) else .ok ([], ts)
      else
        match ts.head? with
        | none => .error unexpected_end
        | some _ =>
            match f ts with
            | .error e => .error e
            | .ok (item, ts2) =>
                match parse_repeated_item fuel f end_ ts2 with
                | .error e => .error e
                | .ok (items, rest) => .ok (item :: items, rest)

/-- `parse_block`: `'{' Statement* '}'`, the statements becoming a list
node. -/
def parse_block (fuel : Nat) : List Token → ParseOut
  | .leftBrace :: rest =>
      (match parse_repeated_item fuel parse_statement (some Token.rightBrace) rest with
      | .error e => .error e
      | .ok (statements, rest2) => .ok (.list statements, rest2))
  | t :: _ => .error (unexpected_token t)
  | [] => .error unexpected_end

/-- `parse_function`.  The Rust code opens with
`assert!(token_iterator.next() == Some(Token::Function))`; the `.fatal`
branch models that assertion failing (its callers guard it by peeking). -/
def parse_function (fuel : Nat) : List Token → ParseOut
  | .function :: rest =>
      (match rest.head? with
      | some (.identifier name) =>
          (match rest.tail with
          | .leftParen :: rest3 =>
              (match parse_repeated_item fuel parse_parameter_declaration
                  (some Token.rightParen) rest3 with
              | .error e => .error e
              | .ok (parameters, rest4) =>
                  (match rest4 with
                  | .arrow :: rest5 =>
                      (match parse_type rest5 with
                      | .error e => .error e
                      | .ok (return_type, rest6) =>
                          (match parse_block fuel rest6 with
                          | .error e => .error e
                          | .ok (body, rest7) =>
                              .ok (.functionDefinition name parameters return_type body,
                                rest7)))
                  | t :: _ => .error (unexpected_token t)
                  | [] => .error unexpected_end))
          | t :: _ => .error (unexpected_token t)
          | [] => .error unexpected_end)
      | some t => .error (unexpected_token t)
      | none => .error unexpected_end)
  | _ => .error (.fatal "assertion failed: next() == Some(Token::Function)")

/-- `parse_global_item`: only function definitions exist at top level. -/
def parse_global_item (fuel : Nat) (ts : List Token) : ParseOut :=
  match ts.head? with
  | some t =>
      if t = Token.function then parse_function fuel ts
      else .error (unexpected_token t)
  | none => .error unexpected_end

/-- `parse_program`: repeated global items with terminator `none`, i.e. the
whole stream must be consumed. -/
def parse_program (fuel : Nat) (ts : List Token) : ParseOut :=
  match parse_repeated_item fuel (parse_global_item fuel) none ts with
  | .error e => .error e
  | .ok (children, rest) => .ok (.list children, rest)

/-- `parser::parse`: the public entry point. -/
def parse (ts : List Token) : Except PError AstNode :=
  match parse_program (ts.length + 1) ts with
  | .error e => .error e
  | .ok (program, _) => .ok program

/-- Outcome of the whole pipeline of `main.rs`: tokenize, then parse. -/
inductive PipelineResult where
  | panicked (msg : String)
  | syntaxError (e : PError)
  | ok (program : AstNode)

/-- The full pipeline on a character input.  (The Rust parser pulls tokens
lazily; tokenizing eagerly first is equivalent whenever tokenization itself
does not panic, which holds for every input this development runs it on.) -/
def run (input : List Char) : PipelineResult :=
  match tokenize input with
  | .error m => .panicked m
  | .ok ts =>
      match parse ts with
      | .error e => .syntaxError e
      | .ok program => .ok program

/-- Decidable equality for `Except`, so concrete lexer/parser results can be
settled by `decide`. -/
def Except.decEq {ε α : Type} [DecidableEq ε] [DecidableEq α] :
    (a b : Except ε α) → Decidable (a = b)
  | .ok a, .ok b =>
      if h : a = b then .isTrue (h ▸ rfl)
      else .isFalse (fun hh => h (Except.ok.inj hh))
  | .ok _, .error _ => .isFalse (fun hh => Except.noConfusion hh)
  | .error _, .ok _ => .isFalse (fun hh => Except.noConfusion hh)
  | .error e, .error e2 =>
      if h : e = e2 then .isTrue (h ▸ rfl)
      else .isFalse (fun hh => h (Except.error.inj hh))

instance {ε α : Type} [DecidableEq ε] [DecidableEq α] : DecidableEq (Except ε α) :=
  Except.decEq

/-- One instrumented pull on the token sequence, recording the whitespace
skipped before the token and the matched text consumed for it.  This is
`TokenIterator::next` again, with bookkeeping; no behaviour is changed. -/
inductive SegStep where
  | eofStep (ws : List Char) (pending : List Char)
  | tokStep (ws : List Char) (t : Token) (text : List Char) (rest : List Char)
  | errStep (ws : List Char) (t : Token) (rest : List Char)
  | panicStep (msg : String)

def nextSeg (input : List Char) : SegStep :=
  let ws := input.takeWhile rustIsWhitespace
  let rest := input.dropWhile rustIsWhitespace
  match lexLoop initialPossibilities [] rest with
  | .eof read => .eofStep ws read
  | .tok t read r => .tokStep ws t read r
  | .errTok t r => .errStep ws t r
  | .panic m => .panicStep m

/-- Whole-stream instrumented tokenization outcome: `clean` means end of
input was reached with no characters pending toward an unfinished token
(`trailingWs` is the whitespace skipped by the final pull); `truncated`
means the source ran out mid-token and the pending characters were silently
dropped; `errored` records the terminal error token and the unconsumed
remainder of the input. -/
inductive SegsOut where
  | clean (segs : List (List Char × Token × List Char)) (trailingWs : List Char)
  | truncated (segs : List (List Char × Token × List Char))
      (ws pending : List Char)
  | errored (segs : List (List Char × Token × List Char))
      (ws : List Char) (t : Token) (rest : List Char)
  | panicked (msg : String)
  | fuelOut
  deriving DecidableEq

def tokenizeSegs : Nat → List Char → SegsOut
  | 0, _ => .fuelOut
  | fuel + 1, input =>
      match nextSeg input with
      | .eofStep ws read =>
          if read.isEmpty then .clean [] ws else .truncated [] ws read
      | .tokStep ws t read r =>
          (match tokenizeSegs fuel r with
          | .clean segs tws => .clean ((ws, t, read) :: segs) tws
          | .truncated segs w p => .truncated ((ws, t, read) :: segs) w p
          | .errored segs w e rr => .errored ((ws, t, read) :: segs) w e rr
          | .panicked m => .panicked m
          | .fuelOut => .fuelOut)
      | .errStep ws t r => .errored [] ws t r
      | .panicStep m => .panicked m

/-- Instrumented tokenization with sufficient fuel. -/
def tokenizeSegsTop (input : List Char) : SegsOut :=
  tokenizeSegs (input.length + 1) input

/-- Concatenation, in emission order, of skipped whitespace and matched
token text: the spec's reconstruction of the input from the token
sequence. -/
def segsText (segs : List (List Char × Token × List Char)) : List Char :=
  (segs.map (fun s => s.1 ++ s.2.2)).foldr (· ++ ·) []

/-- Concatenation of the matched text alone (whitespace ignored). -/
def matchedText (segs : List (List Char × Token × List Char)) : List Char :=
  (segs.map (fun s => s.2.2)).foldr (· ++ ·) []

/-- Whether a candidate's completion check succeeds (`complete` returns a
token without panicking). -/
def canComplete (k : Cand) : Bool :=
  match k.completeE with
  | .ok (some _) => true
  | _ => false

/-- A valid token of length `m` exists at the start of `input`: after the
candidate set is narrowed by the first `m` characters, some surviving
candidate can complete.  This is the code's own notion of token validity,
used to state maximal munch. -/
def validTokenAt (input : List Char) (m : Nat) : Bool :=
  decide (m ≤ input.length) &&
    (survivors initialPossibilities (input.take m)).any canComplete

theorem survivors_nil_cands (xs : List Char) : survivors [] xs = [] := by
  induction xs with
  | nil => rfl
  | cons c cs ih =>
      show survivors (step [] c) cs = []
      simpa [step] using ih

theorem survivors_append (cands : List Cand) (xs ys : List Char) :
    survivors cands (xs ++ ys) = survivors (survivors cands xs) ys := by
  induction xs generalizing cands with
  | nil => rfl
  | cons c cs ih => simpa [survivors] using ih (step cands c)

/-- When the character source runs dry, the scanning loop has consumed all
of it into `read` and reports end of sequence. -/
theorem lexLoop_eof (input : List Char) :
    ∀ cands read fullRead, lexLoop cands read input = .eof fullRead →
      fullRead = read ++ input := by
  induction input with
  | nil =>
      intro cands read fullRead h
      cases h
      simp
  | cons c rest ih =>
      intro cands read fullRead h
      unfold lexLoop at h
      split at h
      · split at h
        · cases h
        · split at h <;> cases h
      · simpa using ih _ _ _ h

/-- Anatomy of a normal token emission: the scan consumed exactly `fr`
(extending the incoming `read` by some `d`), stopped at a character `c` that
kills every candidate surviving `d`, and emitted the first completion of
those survivors in registration order; `c` itself is not consumed. -/
theorem lexLoop_tok (input : List Char) :
    ∀ cands read t fr rest, lexLoop cands read input = .tok t fr rest →
      ∃ d c rest2, fr = read ++ d ∧ input = d ++ c :: rest2 ∧ rest = c :: rest2 ∧
        step (survivors cands d) c = [] ∧
        firstCompletion (survivors cands d) = .ok (some t) := by
  induction input with
  | nil =>
      intro cands read t fr rest h
      cases h
  | cons c0 rest0 ih =>
      intro cands read t fr rest h
      unfold lexLoop at h
      split at h
      · rename_i hstep
        split at h
        · cases h
        · split at h
          · cases h
          · rename_i hfc
            cases h
            exact ⟨[], c0, rest0, by simp, rfl, rfl,
              List.isEmpty_iff.mp hstep, hfc⟩
          · cases h
      · rename_i hstep
        obtain ⟨d, c, rest2, hfr, hin, hrest, hdead, hfc⟩ := ih _ _ _ _ _ h
        exact ⟨c0 :: d, c, rest2, by simpa using hfr, by simp [hin], hrest,
          hdead, hfc⟩

theorem firstCompletion_any (cs : List Cand) (t : Token)
    (h : firstCompletion cs = .ok (some t)) : cs.any canComplete = true := by
  induction cs with
  | nil => cases h
  | cons k rest ih =>
      unfold firstCompletion at h
      simp only [List.any_cons, Bool.or_eq_true]
      cases hk : k.completeE with
      | error m => rw [hk] at h; cases h
      | ok o =>
          cases o with
          | some t0 => left; simp [canComplete, hk]
          | none => rw [hk] at h; right; exact ih h

/-- Tokens other than the error marker. -/
def tokenNotError : Token → Bool
  | .error _ => false
  | _ => true

/-- Candidates that can only ever complete to non-error tokens (every
candidate the tokenizer actually builds: no matcher produces
`Token::Error`). -/
def candNotError : Cand → Bool
  | .exactMatch t _ _ => tokenNotError t
  | _ => true

theorem accept_candNotError (k k2 : Cand) (c : Char)
    (h : k.accept c = some k2) (hk : candNotError k = true) :
    candNotError k2 = true := by
  cases k <;> simp only [Cand.accept] at h <;>
    (repeat' split at h) <;> (try cases h) <;> simp_all [candNotError]

theorem step_candNotError (cands : List Cand) (c : Char)
    (h : cands.all candNotError = true) :
    (step cands c).all candNotError = true := by
  rw [List.all_eq_true] at h ⊢
  intro k2 hk2
  obtain ⟨k, hk, hacc⟩ := List.mem_filterMap.mp hk2
  exact accept_candNotError k k2 c hacc (h k hk)

theorem survivors_candNotError (d : List Char) :
    ∀ cands, cands.all candNotError = true →
      (survivors cands d).all candNotError = true := by
  induction d with
  | nil => intro cands h; exact h
  | cons c cs ih => intro cands h; exact ih _ (step_candNotError cands c h)

theorem firstCompletion_notError (cs : List Cand) (t : Token)
    (hall : cs.all candNotError = true)
    (h : firstCompletion cs = .ok (some t)) : tokenNotError t = true := by
  induction cs with
  | nil => cases h
  | cons k rest ih =>
      simp only [List.all_cons, Bool.and_eq_true] at hall
      unfold firstCompletion at h
      cases hk : k.completeE with
      | error m => rw [hk] at h; cases h
      | ok o =>
          rw [hk] at h
          cases o with
          | none => exact ih hall.2 h
          | some t0 =>
              cases h
              cases k <;> simp only [Cand.completeE] at hk <;>
                (repeat' split at hk) <;> (try cases hk) <;>
                simp_all [candNotError, tokenNotError]

theorem initial_candNotError : initialPossibilities.all candNotError = true := by
  decide

/-- Every allowlisted prefix of whitespace really is whitespace. -/
theorem all_takeWhile (p : Char → Bool) (l : List Char) :
    (l.takeWhile p).all p = true := by
  induction l with
  | nil => rfl
  | cons c cs ih =>
      rw [List.takeWhile_cons]
      split <;> simp_all

theorem segsText_cons (s : List Char × Token × List Char)
    (segs : List (List Char × Token × List Char)) :
    segsText (s :: segs) = (s.1 ++ s.2.2) ++ segsText segs := by
  simp [segsText]

/-- Reconstruction for error-free, cleanly terminated tokenizations: the
input is exactly the interleaving of skipped whitespace and matched token
text, followed by the trailing whitespace consumed by the final pull. -/
theorem tokenizeSegs_clean (fuel : Nat) :
    ∀ input segs tws, tokenizeSegs fuel input = .clean segs tws →
      input = segsText segs ++ tws ∧ tws.all rustIsWhitespace = true ∧
        segs.all (fun s => s.1.all rustIsWhitespace) = true := by
  induction fuel with
  | zero => intro input segs tws h; cases h
  | succ fuel ih =>
      intro input segs tws h
      unfold tokenizeSegs at h
      simp only [nextSeg] at h
      cases hlex : lexLoop initialPossibilities [] (input.dropWhile rustIsWhitespace) with
      | eof read =>
          rw [hlex] at h
          simp only at h
          split at h
          · rename_i hread
            cases h
            have hr := lexLoop_eof _ _ _ _ hlex
            rw [List.nil_append] at hr
            rw [List.isEmpty_iff] at hread
            refine ⟨?_, all_takeWhile _ _, rfl⟩
            have hrest : input.dropWhile rustIsWhitespace = [] := by
              rw [← hr, hread]
            calc input = input.takeWhile rustIsWhitespace ++
                  input.dropWhile rustIsWhitespace := by
                  rw [List.takeWhile_append_dropWhile]
              _ = segsText [] ++ input.takeWhile rustIsWhitespace := by
                  rw [hrest]; simp [segsText]
          · cases h
      | tok t read r =>
          rw [hlex] at h
          simp only at h
          cases hrec : tokenizeSegs fuel r with
          | clean segs2 tws2 =>
              rw [hrec] at h
              cases h
              obtain ⟨hin, hws, hsegs⟩ := ih r segs2 tws hrec
              obtain ⟨d, c, rest2, hfr, hmid, hrrest, _, _⟩ := lexLoop_tok _ _ _ _ _ _ hlex
              rw [List.nil_append] at hfr
              subst hfr
              refine ⟨?_, hws, by simp [hsegs, all_takeWhile]⟩
              calc input = input.takeWhile rustIsWhitespace ++
                    input.dropWhile rustIsWhitespace := by
                    rw [List.takeWhile_append_dropWhile]
                _ = input.takeWhile rustIsWhitespace ++ (read ++ r) := by
                    rw [hmid, hrrest]
                _ = segsText ((input.takeWhile rustIsWhitespace, t, read) :: segs2)
                      ++ tws := by
                    rw [segsText_cons, hin]; simp
          | truncated s2 w p => rw [hrec] at h; cases h
          | errored s2 w e rr => rw [hrec] at h; cases h
          | panicked m => rw [hrec] at h; cases h
          | fuelOut => rw [hrec] at h; cases h
      | errTok t r => rw [hlex] at h; cases h
      | panic m => rw [hlex] at h; cases h

/-- The `end = None` instance of the repeated-item combinator returns
successfully only at true end of stream. -/
theorem parse_repeated_none_consumes_all (fuel : Nat) :
    ∀ (f : List Token → ParseOut) ts items rest,
      parse_repeated_item fuel f none ts = .ok (items, rest) → rest = [] := by
  induction fuel with
  | zero => intro f ts items rest h; cases h
  | succ fuel ih =>
      intro f ts items rest h
      unfold parse_repeated_item at h
      split at h
      · rename_i hend
        simp only [Option.isSome_none, Bool.false_eq_true, if_false] at h
        cases h
        exact List.head?_eq_none_iff.mp hend
      · split at h
        · cases h
        · split at h
          · cases h
          · rename_i item ts2 hf
            split at h
            · cases h
            · rename_i items2 rest2 hrec
              cases h
              exact ih f ts2 items2 rest hrec

theorem accept_exactMatch_inv (k : Cand) (c : Char) (t : Token) (s : List Char)
    (off : Nat) (h : k.accept c = some (.exactMatch t s off)) :
    ∃ off0, k = .exactMatch t s off0 ∧ off = off0 + 1 := by
  cases k <;> simp only [Cand.accept] at h <;> (repeat' split at h) <;>
    simp_all

/-- The `exact_match_token!` candidates advance their offset by exactly one
per consumed character: a surviving one has offset = initial offset plus the
number of characters consumed so far. -/
theorem survivors_exactMatch_offset (d : List Char) :
    ∀ cands t s off, (Cand.exactMatch t s off) ∈ survivors cands d →
      ∃ off0, (Cand.exactMatch t s off0) ∈ cands ∧ off = off0 + d.length := by
  induction d with
  | nil => intro cands t s off h; exact ⟨off, h, by simp⟩
  | cons c cs ih =>
      intro cands t s off h
      obtain ⟨off1, hmem1, hoff1⟩ := ih (step cands c) t s off h
      obtain ⟨k, hk, hacc⟩ := List.mem_filterMap.mp hmem1
      obtain ⟨off0, rfl, rfl⟩ := accept_exactMatch_inv k c t s off1 hacc
      exact ⟨off0, hk, by simp [hoff1]; omega⟩

/-- Offset field of a freshly registered exact-match candidate. -/
def exactOffsetZero : Cand → Bool
  | .exactMatch _ _ off => off == 0
  | _ => true

theorem initial_exactOffsetZero :
    initialPossibilities.all exactOffsetZero = true := by decide

theorem initial_exact_off0 (t : Token) (s : List Char) (off : Nat)
    (h : (Cand.exactMatch t s off) ∈ initialPossibilities) : off = 0 := by
  have hz := List.all_eq_true.mp initial_exactOffsetZero _ h
  simpa [exactOffsetZero] using hz

/-- Classifier separating the `exact_match_token!` candidates (keywords,
type keywords, punctuation) from the hand-written ones. -/
def isExactMatchCand : Cand → Bool
  | .exactMatch _ _ _ => true
  | _ => false

set_option maxRecDepth 1000000

/-- The round-trip input of the spec (§8) and of claim C1. -/
def c1Input : String :=
  "function add(a: i32, b: i32) -> i32 \x7b let sum: i32 = 1; \x7d"

/-- The 23-token sequence claim C1 asserts (with a `Comma` between the second
parameter's type and the `RightParen`, and a final `RightBrace`). -/
def c1ClaimedTokens : List Token :=
  [.function, .identifier "add", .leftParen, .identifier "a", .colon, .i32,
   .comma, .identifier "b", .colon, .i32, .comma, .rightParen, .arrow, .i32,
   .leftBrace, .let_, .identifier "sum", .colon, .i32, .equals, .integer 1,
   .semicolon, .rightBrace]

/-- The sequence the tokenizer actually emits for `c1Input`: only one comma
separates the parameters, and the final `RightBrace` is dropped because the
input ends immediately after it (the scan loop exits at end of input without
consulting the surviving candidate's completion check). -/
def c1ActualTokens : List Token :=
  [.function, .identifier "add", .leftParen, .identifier "a", .colon, .i32,
   .comma, .identifier "b", .colon, .i32, .rightParen, .arrow, .i32,
   .leftBrace, .let_, .identifier "sum", .colon, .i32, .equals, .integer 1,
   .semicolon]

/-- The program tree claim C1 asserts. -/
def c1Program : AstNode :=
  .list [.functionDefinition "add"
    [.parameterDeclaration "a" (.type_ .i32),
     .parameterDeclaration "b" (.type_ .i32)]
    (.type_ .i32)
    (.list [.variableDefinition false "sum" (.type_ .i32) (.integerLiteral 1)])]

/-- C1 counterexample: the input does not tokenize to the claimed 23-token
sequence (the claimed list has a spurious second `Comma`, and the final
`RightBrace` is never emitted because the input ends right after it); as a
consequence the pipeline does not produce the claimed program either — it
fails with "Unexpected end of input". -/
theorem C1_counterexample :
    tokenize c1Input.data ≠ .ok c1ClaimedTokens ∧
    run c1Input.data = .syntaxError (.syntaxError "Unexpected end of input") := by
  exact ⟨by decide, rfl⟩

/-- C1 (amended): `c1Input` tokenizes to the 21-token sequence with a single
`Comma` between the parameters and no final `RightBrace` (the source is
exhausted immediately after `}`, so that token is dropped), and parsing
fails with "Unexpected end of input"; with a trailing newline the input
tokenizes to the same sequence plus the final `RightBrace` and parses to
`Program[FunctionDefinition(add, [(a,I32),(b,I32)], I32,
Block[VariableDefinition(immutable, sum, I32, 1)])]`. -/
theorem C1_thm :
    tokenize c1Input.data = .ok c1ActualTokens ∧
    run c1Input.data = .syntaxError (.syntaxError "Unexpected end of input") ∧
    tokenize (c1Input ++ "\n").data = .ok (c1ActualTokens ++ [.rightBrace]) ∧
    run (c1Input ++ "\n").data = .ok c1Program := by
  exact ⟨rfl, rfl, rfl, rfl⟩

/-- C4: the numeric matchers' completion-step parse failure (a Rust panic via
`unwrap()`) is reachable from user input, contradicting the claim: on `..`
the float matcher completes with accumulated text `.` which is not a valid
float literal, and on a 39-digit integer literal the integer matcher's text
overflows `i128`.  (`parseF64Ok`/`parseI128` are the models of the standard
library parses the `complete` implementations unwrap.) -/
theorem C4_thm :
    tokenize "..".data = .error "FloatParser::complete: float parse failure (panic)" ∧
    tokenize "999999999999999999999999999999999999999 ".data =
      .error "IntegerParser::complete: integer parse failure (panic)" ∧
    parseF64Ok ".".data = false ∧
    parseI128 "999999999999999999999999999999999999999".data = none := by
  exact ⟨rfl, rfl, rfl, rfl⟩

/-- C5 counterexample: on `function 123` the pipeline reports "Unexpected end
of input", not an unexpected Integer token — the tokenizer never emits the
`Integer(123)` token because the input ends while it is still being
scanned. -/
theorem C5_counterexample :
    run "function 123".data = .syntaxError (.syntaxError "Unexpected end of input") ∧
    tokenize "function 123".data = .ok [Token.function] ∧
    PError.syntaxError "Unexpected end of input" ≠
      unexpected_token (Token.integer 123) := by
  exact ⟨rfl, rfl, by decide⟩

/-- C5 (amended): on `function 123` the pipeline yields a SyntaxError
"Unexpected end of input" (the Integer token is never emitted since the
input ends mid-token); with trailing whitespace, `function 123 ` yields the
SyntaxError reporting the unexpected Integer token. -/
theorem C5_thm :
    run "function 123".data = .syntaxError (.syntaxError "Unexpected end of input") ∧
    run "function 123 ".data = .syntaxError (unexpected_token (Token.integer 123)) ∧
    unexpected_token (Token.integer 123) =
      .syntaxError "Unexpected token: \x27123\x27" := by
  exact ⟨rfl, rfl, rfl⟩

/-- C9: when the character source is exhausted mid-token the scan loop
returns end of sequence directly, never consulting the surviving candidates'
completion checks: `lexLoop` on empty remaining input is `.eof` for every
candidate set and read-so-far; concretely `let` produces an empty token
sequence even though the surviving `Let` keyword candidate could complete
(its completion is the registration-order winner at that point). -/
theorem C9_thm :
    (∀ (cands : List Cand) (read : List Char), lexLoop cands read [] = .eof read) ∧
    tokenize "let".data = .ok [] ∧
    firstCompletion (survivors initialPossibilities "let".data) =
      .ok (some Token.let_) := by
  exact ⟨fun _ _ => rfl, rfl, rfl⟩

/-- C2 counterexample: on input `let` the tokenizer emits no tokens at all
(the source is exhausted mid-token and the consumed characters are dropped),
so the concatenated matched text is empty and does not reconstruct the
input. -/
theorem C2_counterexample :
    tokenizeSegsTop "let".data = .truncated [] [] "let".data ∧
    matchedText [] = [] ∧ segsText [] = [] ∧
    ([] : List Char) ≠ "let".data ∧
    tokenize "let".data = .ok [] := by
  exact ⟨rfl, rfl, rfl, by decide, rfl⟩

/-- C2 (amended): for every input on which tokenization reaches end of input
cleanly — without an error token and with no characters pending toward an
unfinished trailing token — concatenating, in order, the whitespace skipped
before each emitted token with that token's matched text, followed by the
trailing whitespace skipped by the final pull, reconstructs the original
input exactly (and everything skipped really is whitespace). -/
theorem C2_thm (input : List Char) (segs : List (List Char × Token × List Char))
    (tws : List Char) (h : tokenizeSegsTop input = .clean segs tws) :
    input = segsText segs ++ tws ∧ tws.all rustIsWhitespace = true ∧
      segs.all (fun s => s.1.all rustIsWhitespace) = true :=
  tokenizeSegs_clean _ input segs tws h

theorem C2_witness :
    tokenizeSegsTop "let x ".data =
      .clean [([], Token.let_, "let".data),
              (" ".data, Token.identifier "x", "x".data)] " ".data ∧
    "let x ".data =
      segsText [([], Token.let_, "let".data),
                (" ".data, Token.identifier "x", "x".data)] ++ " ".data := by
  refine ⟨rfl, ?_⟩
  exact (C2_thm "let x ".data
    [([], Token.let_, "let".data), (" ".data, Token.identifier "x", "x".data)]
    " ".data rfl).1

/-- C6: lexical errors are terminal.  A set terminal-error flag makes every
subsequent pull return end of sequence with the state unchanged; emitting an
error token sets the flag (normal completions never produce the error
constructor); and concretely `@` yields exactly one error token, leaving the
flag set so the remaining sequence is empty. -/
theorem C6_thm :
    (∀ s : LexerState, s.found_invalid_token = true → nextE s = .ok (none, s)) ∧
    (∀ (s : LexerState) (t : Token) (s2 : LexerState),
      nextE s = .ok (some t, s2) → tokenNotError t = false →
      s2.found_invalid_token = true) ∧
    tokenize "@".data = .ok [Token.error "Invalid character: @"] ∧
    nextE ⟨false, "@".data⟩ =
      .ok (some (.error "Invalid character: @"), ⟨true, "@".data⟩) := by
  refine ⟨?_, ?_, rfl, rfl⟩
  · intro s hs
    simp [nextE, hs]
  · intro s t s2 h hnot
    by_cases hf : s.found_invalid_token = true
    · simp [nextE, hf] at h
    · rw [Bool.not_eq_true] at hf
      simp only [nextE, hf, Bool.false_eq_true, if_false] at h
      cases hlex : lexLoop initialPossibilities [] (s.input.dropWhile rustIsWhitespace) with
      | eof read => rw [hlex] at h; cases h
      | tok t0 fr r =>
          rw [hlex] at h
          cases h
          obtain ⟨d, c, rest2, _, _, _, _, hfc⟩ := lexLoop_tok _ _ _ _ _ _ hlex
          have hall := survivors_candNotError d initialPossibilities initial_candNotError
          have := firstCompletion_notError _ _ hall hfc
          rw [this] at hnot
          cases hnot
      | errTok t0 r => rw [hlex] at h; cases h; rfl
      | panic m => rw [hlex] at h; cases h

theorem C6_witness :
    nextE ⟨true, "abc".data⟩ = .ok (none, ⟨true, "abc".data⟩) ∧
    (LexerState.mk true "@".data).found_invalid_token = true := by
  exact ⟨C6_thm.1 ⟨true, "abc".data⟩ rfl,
    C6_thm.2.1 ⟨false, "@".data⟩ (Token.error "Invalid character: @")
      ⟨true, "@".data⟩ rfl rfl⟩

/-- C7: `parse` returns `Ok` only with the whole token stream consumed (the
top-level repeated-item call uses terminator `none`, i.e. "require true end
of stream"); a token remaining where no production applies yields the
"Unexpected token" SyntaxError; and the repeated-item combinator, given a
real terminator but an exhausted stream, fails with "Unexpected end of
input". -/
theorem C7_thm :
    (∀ (fuel : Nat) (ts : List Token) (node : AstNode) (rest : List Token),
      parse_program fuel ts = .ok (node, rest) → rest = []) ∧
    (∀ (fuel : Nat) (t : Token) (ts : List Token), t ≠ Token.function →
      parse_program (fuel + 1) (t :: ts) = .error (unexpected_token t)) ∧
    (∀ (fuel : Nat) (f : List Token → ParseOut) (e : Token),
      parse_repeated_item (fuel + 1) f (some e) [] = .error unexpected_end) := by
  refine ⟨?_, ?_, ?_⟩
  · intro fuel ts node rest h
    unfold parse_program at h
    split at h
    · cases h
    · rename_i children rest2 hrep
      cases h
      exact parse_repeated_none_consumes_all fuel _ ts children rest hrep
  · intro fuel t ts ht
    simp [parse_program, parse_repeated_item, parse_global_item, ht]
  · intro fuel f e
    simp [parse_repeated_item, unexpected_end]

theorem C7_witness :
    parse_program 1 [] = .ok (.list [], []) ∧ ([] : List Token) = [] ∧
    parse_program 1 [Token.rightBrace] =
      .error (unexpected_token Token.rightBrace) ∧
    parse_repeated_item 1 parse_statement (some Token.rightBrace) [] =
      .error unexpected_end := by
  exact ⟨rfl, C7_thm.1 1 [] (.list []) [] rfl,
    C7_thm.2.1 0 Token.rightBrace [] (by decide),
    C7_thm.2.2 0 parse_statement Token.rightBrace⟩

/-- C8: at any statement position where the expression production succeeds,
the statement is wrapped in `IgnoreValue` (consuming the `;`) exactly when a
`Semicolon` follows the expression, and returned as the bare expression node
otherwise.  (When the leading token is `let` the expression production
cannot succeed, so the hypothesis confines the statement to expression
statements exactly as the claim does.) -/
theorem C8_thm (ts rest : List Token) (e : AstNode)
    (h : parse_expression ts = .ok (e, rest)) :
    parse_statement ts =
      if rest.head? = some Token.semicolon then .ok (.ignoreValue e, rest.tail)
      else .ok (e, rest) := by
  cases ts with
  | nil => simp [parse_expression] at h
  | cons t ts2 =>
      by_cases ht : t = Token.let_
      · subst ht
        simp [parse_expression] at h
      · unfold parse_statement
        simp only [List.head?_cons]
        rw [if_neg ht, h]

theorem C8_witness :
    parse_statement [Token.integer 5, Token.semicolon] =
      .ok (.ignoreValue (.integerLiteral 5), []) ∧
    parse_statement [Token.integer 7] = .ok (.integerLiteral 7, []) := by
  constructor
  · have h := C8_thm [Token.integer 5, Token.semicolon] [Token.semicolon]
      (.integerLiteral 5) rfl
    simpa using h
  · have h := C8_thm [Token.integer 7] [] (.integerLiteral 7) rfl
    simpa using h

/-- C10: the parser treats a `Token::Error` like any other unexpected token:
wherever the grammar inspects it — the public entry point, a global item, an
expression, a type — the result is the "Unexpected token" SyntaxError whose
representation (via the `Display` arm for `Error`) embeds the lexical error
message; no distinct lexical-error result exists. -/
theorem C10_thm (m : String) (ts : List Token) (fuel : Nat) :
    parse (Token.error m :: ts) = .error (unexpected_token (Token.error m)) ∧
    parse_global_item fuel (Token.error m :: ts) =
      .error (unexpected_token (Token.error m)) ∧
    parse_expression (Token.error m :: ts) =
      .error (unexpected_token (Token.error m)) ∧
    parse_type (Token.error m :: ts) = .error (unexpected_token (Token.error m)) ∧
    unexpected_token (Token.error m) =
      .syntaxError ("Unexpected token: \x27" ++ m ++ "\x27") := by
  refine ⟨?_, ?_, rfl, rfl, ?_⟩
  · simp [parse, parse_program, parse_repeated_item, parse_global_item]
  · simp [parse_global_item]
  · simp only [unexpected_token, tokenDisplay, ← String.append_assoc]
    rfl

/-- C3: maximal munch and registration-order tie-breaking.  Whenever the
tokenizer emits a token with matched text `fr` from the character stream
`input` (the stream position after whitespace skipping): no longer valid
token exists at that position (every strictly longer prefix leaves no
candidate alive, let alone a completable one), the emitted text itself is a
valid token there, and the emitted token is the first completion, in
registration order, among the candidates surviving `fr`.  Registration does
put every keyword/primitive-type matcher (the first 20 entries, all
`exact_match_token!` candidates) before the identifier matcher (entry 20),
so `let` beats `Identifier("let")` while `lettuce` stays one identifier; and
the completed multi-character `->` candidate and the completed
single-character `-` candidate are never alive simultaneously (their
completions need different lengths), so the multi-character operator wins
exactly as the concrete cases show, never by an actual equal-length tie. -/
theorem C3_thm (input : List Char) (t : Token) (fr rest : List Char)
    (h : lexLoop initialPossibilities [] input = .tok t fr rest) :
    (∀ m, fr.length < m → validTokenAt input m = false) ∧
    validTokenAt input fr.length = true ∧
    firstCompletion (survivors initialPossibilities fr) = .ok (some t) ∧
    ((initialPossibilities.take 20).all isExactMatchCand = true ∧
      initialPossibilities.get? 20 = some (.identifierP [])) ∧
    (∀ d0 : List Char,
      Cand.exactMatch Token.arrow "->".data 2 ∈ survivors initialPossibilities d0 →
      Cand.exactMatch Token.minus "-".data 1 ∈ survivors initialPossibilities d0 →
      False) ∧
    (tokenize "let ".data = .ok [Token.let_] ∧
      tokenize "lettuce ".data = .ok [Token.identifier "lettuce"] ∧
      tokenize "-> ".data = .ok [Token.arrow] ∧
      tokenize "- ".data = .ok [Token.minus]) := by
  obtain ⟨d, c, rest2, hfr, hin, hrest, hdead, hfc⟩ := lexLoop_tok _ _ _ _ _ _ h
  rw [List.nil_append] at hfr
  subst hfr
  refine ⟨?_, ?_, hfc, ⟨by decide, by decide⟩, ?_, rfl, rfl, rfl, rfl⟩
  · intro m hm
    by_cases hle : m ≤ input.length
    · have hd : fr.length ≤ m := Nat.le_of_lt hm
      have hsub : m - fr.length = (m - fr.length - 1) + 1 := by omega
      have htake : input.take m = fr ++ c :: (rest2.take (m - fr.length - 1)) := by
        rw [hin, List.take_append_eq_append_take,
          List.take_of_length_le hd, hsub, List.take_succ_cons,
          Nat.add_sub_cancel]
      unfold validTokenAt
      rw [htake, survivors_append]
      have hempty : survivors (survivors initialPossibilities fr)
          (c :: rest2.take (m - fr.length - 1)) = [] := by
        show survivors (step (survivors initialPossibilities fr) c) _ = []
        rw [hdead]
        exact survivors_nil_cands _
      rw [hempty]
      simp
    · unfold validTokenAt
      simp [hle]
  · unfold validTokenAt
    have h1 : input.take fr.length = fr := by rw [hin]; exact List.take_left fr _
    have h2 := firstCompletion_any _ _ hfc
    rw [h1, h2, Bool.and_true, decide_eq_true_eq, hin]
    simp
  · intro d0 h1 h2
    obtain ⟨o1, hm1, ho1⟩ := survivors_exactMatch_offset d0 _ _ _ _ h1
    obtain ⟨o2, hm2, ho2⟩ := survivors_exactMatch_offset d0 _ _ _ _ h2
    have hz1 := initial_exact_off0 _ _ _ hm1
    have hz2 := initial_exact_off0 _ _ _ hm2
    omega

theorem C3_witness :
    lexLoop initialPossibilities [] "let ".data =
      .tok Token.let_ "let".data " ".data ∧
    validTokenAt "let ".data 3 = true ∧
    validTokenAt "let ".data 4 = false := by
  have h : lexLoop initialPossibilities [] "let ".data =
      .tok Token.let_ "let".data " ".data := rfl
  have hc := C3_thm "let ".data Token.let_ "let".data " ".data h
  exact ⟨h, hc.2.1, hc.1 4 (by decide)⟩
